import Mathlib

/-!
Verification of the Pioneer Detection Method core (src/pdm.py).

The program works on pandas DataFrames of floats in which entries may be
NaN ("undefined").  We embed a T x N frame as a structure carrying its two
dimensions and a total entry function into `Option ℚ`: `none` models NaN,
`some q` models the finite float value q (modelled exactly as a rational).
Every pandas operation used by the code is embedded with its null-aware
semantics: arithmetic on a NaN operand yields NaN, comparisons with a NaN
operand yield False, `sum`/`mean` with skipna skip NaN entries, `sum` with
min_count=1 yields NaN on an all-NaN row, and float division by zero yields
a non-finite value (inf or NaN), modelled as `none`.
-/

/-- A matrix cell: `none` is NaN, `some q` a finite value. -/
abbrev Cell : Type := Option ℚ

/-- A T x N data frame: rows are periods, columns are experts.  The entry
function is total; only indices `t < T`, `i < N` are meaningful. -/
structure DFrame where
  T : ℕ
  N : ℕ
  entry : ℕ → ℕ → Cell

/-- Null-propagating lift of a binary operation (pandas elementwise arithmetic). -/
def cmap2 (f : ℚ → ℚ → ℚ) : Cell → Cell → Cell
  | some a, some b => some (f a b)
  | _, _ => none

/-- Elementwise addition with NaN propagation. -/
def cadd : Cell → Cell → Cell := cmap2 (· + ·)

/-- Elementwise subtraction with NaN propagation. -/
def csub : Cell → Cell → Cell := cmap2 (· - ·)

/-- Elementwise multiplication with NaN propagation. -/
def cmul : Cell → Cell → Cell := cmap2 (· * ·)

/-- Elementwise absolute value with NaN propagation. -/
def cabs : Cell → Cell
  | some a => some |a|
  | none => none

/-- Elementwise division.  NaN operands propagate; float division by zero
yields a non-finite value (inf or NaN), which the frame treats as undefined,
so it is modelled as `none`. -/
def cdiv : Cell → Cell → Cell
  | some a, some b => if b = 0 then none else some (a / b)
  | _, _ => none

/-- Pandas `<` on cells: any comparison with NaN is False. -/
def cltB : Cell → Cell → Bool
  | some a, some b => decide (a < b)
  | _, _ => false

/-- Pandas `>` on cells. -/
def cgtB (x y : Cell) : Bool := cltB y x

/-- Pandas `> 0` on a cell (comparison of a cell with the scalar 0). -/
def cgt0 (x : Cell) : Bool := cltB (some 0) x

/-- The defined (non-NaN) values of a list of cells. -/
def definedVals (l : List Cell) : List ℚ := l.filterMap id

/-- Pandas `sum` with `min_count=1`: NaN when every entry is NaN, otherwise
the sum of the defined entries. -/
def sumMin1 (l : List Cell) : Cell :=
  if definedVals l = [] then none else some (definedVals l).sum

/-- Pandas `sum` with default `min_count=0`: the sum of the defined entries,
0 when there are none. -/
def sumSkip (l : List Cell) : ℚ := (definedVals l).sum

/-- Pandas `mean` with skipna: the mean of the defined entries, NaN when
there are none. -/
def meanSkip (l : List Cell) : Cell :=
  if definedVals l = [] then none
  else some ((definedVals l).sum / ((definedVals l).length : ℚ))

/-- Row t of a frame as a list over its columns. -/
def rowList (F : DFrame) (t : ℕ) : List Cell :=
  (List.range F.N).map (fun i => F.entry t i)

/-- `m_minus[col] = X.drop(columns=col).mean(axis=1)`: the leave-one-out
benchmark frame of src/pdm.py (Step 0). -/
def m_minus (F : DFrame) : DFrame :=
  ⟨F.T, F.N, fun t i =>
    meanSkip (((List.range F.N).filter (fun j => decide (j ≠ i))).map
      (fun j => F.entry t j))⟩

/-- Pandas `DataFrame.diff()`: first row NaN, then elementwise difference of
consecutive rows with NaN propagation. -/
def dfDiff (F : DFrame) : DFrame :=
  ⟨F.T, F.N, fun t i =>
    if t = 0 then none else csub (F.entry t i) (F.entry (t - 1) i)⟩

/-- `delta_X = X.diff()` of src/pdm.py. -/
def delta_X (F : DFrame) : DFrame := dfDiff F

/-- `delta_m = m_minus.diff()` of src/pdm.py. -/
def delta_m (F : DFrame) : DFrame := dfDiff (m_minus F)

/-- `distance = (X - m_minus).abs()` of src/pdm.py. -/
def distance (F : DFrame) (t i : ℕ) : Cell :=
  cabs (csub (F.entry t i) ((m_minus F).entry t i))

/-- `distance_prev = distance.shift(1)` of src/pdm.py: first row NaN. -/
def distance_prev (F : DFrame) (t i : ℕ) : Cell :=
  if t = 0 then none else distance F (t - 1) i

/-- `cond_distance = distance < distance_prev` of src/pdm.py (Step 1). -/
def cond_distance (F : DFrame) (t i : ℕ) : Bool :=
  cltB (distance F t i) (distance_prev F t i)

/-- `cond_orientation = delta_m.abs() > delta_X.abs()` of src/pdm.py (Step 2). -/
def cond_orientation (F : DFrame) (t i : ℕ) : Bool :=
  cgtB (cabs ((delta_m F).entry t i)) (cabs ((delta_X F).entry t i))

/-- `denom = delta_m.abs() + delta_X.abs()` of src/pdm.py. -/
def denom (F : DFrame) (t i : ℕ) : Cell :=
  cadd (cabs ((delta_m F).entry t i)) (cabs ((delta_X F).entry t i))

/-- `proportion = delta_m.abs() / denom` of src/pdm.py (Step 3). -/
def proportion (F : DFrame) (t i : ℕ) : Cell :=
  cdiv (cabs ((delta_m F).entry t i)) (denom F t i)

/-- `mask = cond_distance & cond_orientation & (denom > 0)` of src/pdm.py. -/
def maskPDM (F : DFrame) (t i : ℕ) : Bool :=
  cond_distance F t i && cond_orientation F t i && cgt0 (denom F t i)

/-- `raw = proportion.where(mask, 0.0)` of src/pdm.py. -/
def rawW (F : DFrame) (t i : ℕ) : Cell :=
  if maskPDM F t i then proportion F t i else some 0

/-- `row_sums = raw.sum(axis=1)` of src/pdm.py (default skipna sum). -/
def row_sums (F : DFrame) (t : ℕ) : ℚ :=
  sumSkip ((List.range F.N).map (fun i => rawW F t i))

/-- `compute_pioneer_weights_simple` of src/pdm.py: the weights frame
`raw.div(row_sums.replace(0.0, np.nan), axis=0)`. -/
def compute_pioneer_weights_simple (F : DFrame) : DFrame :=
  ⟨F.T, F.N, fun t i =>
    cdiv (rawW F t i) (if row_sums F t = 0 then none else some (row_sums F t))⟩

/-- `weighted_sum = (forecasts * weights).sum(axis=1, min_count=1)` of
src/pdm.py, over column-aligned frames. -/
def weighted_sum (F W : DFrame) (t : ℕ) : Cell :=
  sumMin1 ((List.range F.N).map (fun i => cmul (F.entry t i) (W.entry t i)))

/-- `weight_sums = weights.sum(axis=1, min_count=1)` of src/pdm.py. -/
def weight_sums (F W : DFrame) (t : ℕ) : Cell :=
  sumMin1 ((List.range F.N).map (fun i => W.entry t i))

/-- `fallback_mean = forecasts.mean(axis=1)` of src/pdm.py. -/
def fallback_mean (F : DFrame) (t : ℕ) : Cell :=
  meanSkip (rowList F t)

/-- `pooled_forecast_simple` of src/pdm.py: the weighted sum, replaced by the
simple cross-sectional mean at the rows where `no_pioneer` holds, that is,
where the weight sum is NaN or exactly 0. -/
def pooled_forecast_simple (F W : DFrame) (t : ℕ) : Cell :=
  if weight_sums F W t = none ∨ weight_sums F W t = some 0 then fallback_mean F t
  else weighted_sum F W t

/-- The numeric value of a raw weight (raw weights are never NaN). -/
def rawQ (F : DFrame) (t i : ℕ) : ℚ := (rawW F t i).getD 0

/-- The leave-one-out benchmark as the spec words it: the arithmetic mean of
the defined values of all experts other than i at period t, undefined when
no other expert has a defined value there.  Stated independently of the
source embedding `m_minus` so the two can be compared. -/
def looMean_spec (F : DFrame) (t i : ℕ) : Cell :=
  let vals := ((List.range F.N).filter (fun j => decide (j ≠ i))).filterMap
    (fun j => F.entry t j)
  if vals.length = 0 then none else some (vals.sum / (vals.length : ℚ))

/-- The three-expert, four-period scenario matrix of the spec: columns are
E1 = (10, 11, 13, 13), E2 = (10, 10, 10, 14), E3 = (10, 9, 9, 15). -/
def exF : DFrame :=
  ⟨4, 3, fun t i =>
    if i = 0 then [some (10 : ℚ), some 11, some 13, some 13].getD t none
    else if i = 1 then [some (10 : ℚ), some 10, some 10, some 14].getD t none
    else if i = 2 then [some (10 : ℚ), some 9, some 9, some 15].getD t none
    else none⟩

/-- A 1 x 2 forecast frame whose only defined entry is expert 0 at period 0. -/
def cexF : DFrame := ⟨1, 2, fun t i => if t = 0 ∧ i = 0 then some 1 else none⟩

/-- A 1 x 2 weight frame whose only defined entry is expert 1 at period 0. -/
def cexW : DFrame := ⟨1, 2, fun t i => if t = 0 ∧ i = 1 then some 1 else none⟩

/-- A single-expert frame with a defined entry at period 0 and NaN at period 1. -/
def exG : DFrame := ⟨2, 1, fun t i => if t = 0 ∧ i = 0 then some 5 else none⟩

/-! ### Basic facts about the cell operations -/

theorem cmap2_eq_some {f : ℚ → ℚ → ℚ} {x y : Cell} {c : ℚ}
    (h : cmap2 f x y = some c) : ∃ a b, x = some a ∧ y = some b ∧ c = f a b := by
  cases x with
  | none => simp [cmap2] at h
  | some a =>
    cases y with
    | none => simp [cmap2] at h
    | some b =>
      refine ⟨a, b, rfl, rfl, ?_⟩
      simpa [cmap2] using h.symm

theorem cabs_eq_some {x : Cell} {a : ℚ} (h : cabs x = some a) :
    ∃ b, x = some b ∧ a = |b| := by
  cases x with
  | none => simp [cabs] at h
  | some b => exact ⟨b, rfl, by simpa [cabs] using h.symm⟩

theorem cltB_eq_true {x y : Cell} :
    cltB x y = true ↔ ∃ a b, x = some a ∧ y = some b ∧ a < b := by
  cases x with
  | none => simp [cltB]
  | some a =>
    cases y with
    | none => simp [cltB]
    | some b => simp [cltB]

theorem cgt0_eq_true {x : Cell} : cgt0 x = true ↔ ∃ a, x = some a ∧ 0 < a := by
  cases x with
  | none => simp [cgt0, cltB]
  | some a => simp [cgt0, cltB]

theorem cdiv_some_some {a b : ℚ} (hb : b ≠ 0) :
    cdiv (some a) (some b) = some (a / b) := by
  simp [cdiv, hb]

/-! ### The mask and the raw weights -/

/-- The boolean conjuncts of a true mask. -/
theorem mask_parts {F : DFrame} {t i : ℕ} (h : maskPDM F t i = true) :
    cond_distance F t i = true ∧ cond_orientation F t i = true ∧
      cgt0 (denom F t i) = true := by
  simpa [maskPDM, Bool.and_eq_true, and_assoc] using h

/-- A true mask pins down the two slopes and every Step 2 and Step 3
quantity built from them. -/
theorem mask_data {F : DFrame} {t i : ℕ} (h : maskPDM F t i = true) :
    ∃ m x, (delta_m F).entry t i = some m ∧ (delta_X F).entry t i = some x ∧
      |x| < |m| ∧ 0 < |m| + |x| ∧
      denom F t i = some (|m| + |x|) ∧
      proportion F t i = some (|m| / (|m| + |x|)) ∧
      cond_distance F t i = true := by
  obtain ⟨hdist, horient, -⟩ := mask_parts h
  obtain ⟨b, a, hb, ha, hba⟩ := cltB_eq_true.mp horient
  obtain ⟨m, hm, ham⟩ := cabs_eq_some ha
  obtain ⟨x, hx, hbx⟩ := cabs_eq_some hb
  subst ham hbx
  have hm0 : 0 < |m| := lt_of_le_of_lt (abs_nonneg x) hba
  have hsum : 0 < |m| + |x| := add_pos_of_pos_of_nonneg hm0 (abs_nonneg x)
  refine ⟨m, x, hm, hx, hba, hsum, ?_, ?_, hdist⟩
  · simp [denom, cadd, hm, hx, cabs, cmap2]
  · have hne : |m| + |x| ≠ 0 := ne_of_gt hsum
    simp [proportion, denom, hm, hx, cabs, cadd, cmap2, cdiv, hne]

/-- Every raw weight is a defined value: masked-out cells hold exactly 0 and
masked-in cells hold the Step 3 proportion, whose denominator is positive. -/
theorem rawW_eq_some (F : DFrame) (t i : ℕ) : rawW F t i = some (rawQ F t i) := by
  by_cases h : maskPDM F t i = true
  · obtain ⟨m, x, -, -, -, -, -, hprop, -⟩ := mask_data h
    simp [rawQ, rawW, h, hprop]
  · simp [rawQ, rawW, h]

theorem rawQ_of_not_mask {F : DFrame} {t i : ℕ} (h : maskPDM F t i = false) :
    rawQ F t i = 0 := by
  simp [rawQ, rawW, h]

theorem rawQ_pos_of_mask {F : DFrame} {t i : ℕ} (h : maskPDM F t i = true) :
    0 < rawQ F t i := by
  obtain ⟨m, x, -, -, hba, hsum, -, hprop, -⟩ := mask_data h
  have hm0 : 0 < |m| := lt_of_le_of_lt (abs_nonneg x) hba
  have : rawW F t i = some (|m| / (|m| + |x|)) := by simp [rawW, h, hprop]
  simp [rawQ, this]
  exact div_pos hm0 hsum

theorem rawQ_nonneg (F : DFrame) (t i : ℕ) : 0 ≤ rawQ F t i := by
  by_cases h : maskPDM F t i = true
  · exact le_of_lt (rawQ_pos_of_mask h)
  · simp [rawQ_of_not_mask (Bool.eq_false_iff.mpr h)]

theorem mask_of_rawQ_pos {F : DFrame} {t i : ℕ} (h : 0 < rawQ F t i) :
    maskPDM F t i = true := by
  by_contra hc
  rw [rawQ_of_not_mask (Bool.eq_false_iff.mpr hc)] at h
  exact lt_irrefl 0 h

/-- Lists of cells that are all defined have predictable defined values. -/
theorem definedVals_map_of_some {g : ℕ → Cell} {v : ℕ → ℚ}
    (h : ∀ i, g i = some (v i)) :
    ∀ L : List ℕ, definedVals (L.map g) = L.map v := by
  intro L
  induction L with
  | nil => rfl
  | cons a L ih =>
    simp only [List.map_cons, definedVals, List.filterMap_cons, h a, id]
    simpa [definedVals] using ih

/-- The row sum of the raw weights is the plain sum of their values. -/
theorem row_sums_eq_sum (F : DFrame) (t : ℕ) :
    row_sums F t = ((List.range F.N).map (fun i => rawQ F t i)).sum := by
  unfold row_sums sumSkip
  rw [definedVals_map_of_some (rawW_eq_some F t)]

theorem row_sums_nonneg (F : DFrame) (t : ℕ) : 0 ≤ row_sums F t := by
  rw [row_sums_eq_sum]
  refine List.sum_nonneg ?_
  intro q hq
  obtain ⟨i, -, rfl⟩ := List.mem_map.mp hq
  exact rawQ_nonneg F t i

/-- A zero row sum makes the whole weight row NaN. -/
theorem weights_entry_of_zero {F : DFrame} {t : ℕ} (h : row_sums F t = 0)
    (i : ℕ) : (compute_pioneer_weights_simple F).entry t i = none := by
  simp [compute_pioneer_weights_simple, h, cdiv, rawW_eq_some F t i]

/-- A nonzero row sum divides every raw weight in the row. -/
theorem weights_entry_of_ne {F : DFrame} {t : ℕ} (h : row_sums F t ≠ 0)
    (i : ℕ) : (compute_pioneer_weights_simple F).entry t i =
      some (rawQ F t i / row_sums F t) := by
  simp [compute_pioneer_weights_simple, h, rawW_eq_some F t i, cdiv]

/-- A positive weight forces a positive raw weight, hence a true mask, and a
positive row sum. -/
theorem mask_of_weight_pos {F : DFrame} {t i : ℕ} {w : ℚ}
    (hw : (compute_pioneer_weights_simple F).entry t i = some w) (hp : 0 < w) :
    maskPDM F t i = true ∧ 0 < row_sums F t ∧ w = rawQ F t i / row_sums F t := by
  by_cases h : row_sums F t = 0
  · rw [weights_entry_of_zero h i] at hw
    exact absurd hw (by simp)
  · have hsum : 0 < row_sums F t := lt_of_le_of_ne (row_sums_nonneg F t) (Ne.symm h)
    rw [weights_entry_of_ne h i] at hw
    have hwv : w = rawQ F t i / row_sums F t := by
      simpa using hw.symm
    have hraw : 0 < rawQ F t i := by
      by_contra hc
      push_neg at hc
      have : w ≤ 0 := by
        rw [hwv]
        exact div_nonpos_of_nonpos_of_nonneg hc (le_of_lt hsum)
      exact absurd hp (not_lt.mpr this)
    exact ⟨mask_of_rawQ_pos hraw, hsum, hwv⟩

/-! ### List helpers -/

theorem list_sum_map_div (L : List ℕ) (f : ℕ → ℚ) (c : ℚ) :
    (L.map (fun i => f i / c)).sum = (L.map f).sum / c := by
  induction L with
  | nil => simp
  | cons a L ih => simp [List.sum_cons, ih, add_div]

theorem exists_pos_of_sum_pos {L : List ℕ} {f : ℕ → ℚ}
    (h : 0 < (L.map f).sum) : ∃ i ∈ L, 0 < f i := by
  have h0 : (L.map (fun _ : ℕ => (0 : ℚ))).sum = 0 := by simp
  have := List.exists_lt_of_sum_lt (l := L) (fun _ : ℕ => (0 : ℚ)) f (by rw [h0]; exact h)
  simpa using this

theorem definedVals_eq_nil_iff {l : List Cell} :
    definedVals l = [] ↔ ∀ c ∈ l, c = none := by
  simp [definedVals, List.filterMap_eq_nil_iff]

theorem sumMin1_eq_none_iff {l : List Cell} :
    sumMin1 l = none ↔ definedVals l = [] := by
  unfold sumMin1
  split <;> simp_all

theorem meanSkip_eq_none_iff {l : List Cell} :
    meanSkip l = none ↔ definedVals l = [] := by
  unfold meanSkip
  split <;> simp_all

/-- The skipna mean of a one-element list is that element, defined or not. -/
theorem meanSkip_singleton (c : Cell) : meanSkip [c] = c := by
  cases c with
  | none => simp [meanSkip, definedVals]
  | some x => simp [meanSkip, definedVals]

theorem mem_rowList {F : DFrame} {t : ℕ} {c : Cell} :
    c ∈ rowList F t ↔ ∃ i, i < F.N ∧ F.entry t i = c := by
  simp [rowList, List.mem_map, List.mem_range]

/-! ### Period 0 and degenerate rows -/

/-- At period 0 the shifted distance is NaN, so Step 1 fails for everyone. -/
theorem maskPDM_at_zero (F : DFrame) (i : ℕ) : maskPDM F 0 i = false := by
  have h : cond_distance F 0 i = false := by
    unfold cond_distance distance_prev
    simp only [if_pos rfl]
    cases distance F 0 i <;> simp [cltB]
  simp [maskPDM, h]

/-- The raw weights of period 0 all vanish, so its row sum is 0. -/
theorem row_sums_at_zero (F : DFrame) : row_sums F 0 = 0 := by
  rw [row_sums_eq_sum]
  refine List.sum_eq_zero ?_
  intro q hq
  obtain ⟨i, -, rfl⟩ := List.mem_map.mp hq
  exact rawQ_of_not_mask (maskPDM_at_zero F i)

/-- A min_count=1 sum over a list holding a defined cell is defined. -/
theorem sumMin1_ne_none {l : List Cell} {c : Cell} (hc : c ∈ l) (h : c ≠ none) :
    sumMin1 l ≠ none := by
  intro hn
  rw [sumMin1_eq_none_iff, definedVals_eq_nil_iff] at hn
  exact h (hn c hc)

/-- A skipna mean over a list holding a defined cell is defined. -/
theorem meanSkip_ne_none {l : List Cell} {c : Cell} (hc : c ∈ l) (h : c ≠ none) :
    meanSkip l ≠ none := by
  intro hn
  rw [meanSkip_eq_none_iff, definedVals_eq_nil_iff] at hn
  exact h (hn c hc)

/-- A defined leave-one-out mean needs a defined value from some other expert. -/
theorem m_minus_some_exists {F : DFrame} {t i : ℕ} {q : ℚ}
    (h : (m_minus F).entry t i = some q) :
    ∃ j, j < F.N ∧ j ≠ i ∧ (F.entry t j).isSome = true := by
  have hne : definedVals (((List.range F.N).filter
      (fun j => decide (j ≠ i))).map (fun j => F.entry t j)) ≠ [] := by
    intro hnil
    have : (m_minus F).entry t i = none := by
      show meanSkip _ = none
      rw [meanSkip_eq_none_iff]
      exact hnil
    rw [this] at h
    exact Option.noConfusion h
  obtain ⟨v, hv⟩ := List.exists_mem_of_ne_nil _ hne
  obtain ⟨c, hc, hcv⟩ := List.mem_filterMap.mp hv
  obtain ⟨j, hj, rfl⟩ := List.mem_map.mp hc
  obtain ⟨hjr, hji⟩ := List.mem_filter.mp hj
  refine ⟨j, List.mem_range.mp hjr, of_decide_eq_true hji, ?_⟩
  simp only [id] at hcv
  rw [hcv]
  rfl

/-- A defined entry of a diffed frame needs defined entries at t and t-1,
with t positive. -/
theorem dfDiff_some {F : DFrame} {t i : ℕ} {q : ℚ}
    (h : (dfDiff F).entry t i = some q) :
    1 ≤ t ∧ (∃ a, F.entry t i = some a) ∧ ∃ b, F.entry (t - 1) i = some b := by
  unfold dfDiff at h
  simp only at h
  by_cases ht : t = 0
  · rw [if_pos ht] at h
    exact Option.noConfusion h
  · rw [if_neg ht] at h
    obtain ⟨a, b, ha, hb, -⟩ := cmap2_eq_some h
    exact ⟨Nat.one_le_iff_ne_zero.mpr ht, ⟨a, ha⟩, ⟨b, hb⟩⟩


/-! ### Claim theorems -/

/-- Claim C6: for every forecast matrix, every weight in the first row
(period 0) of the matrix returned by compute_pioneer_weights_simple is
undefined, since no predecessor period exists. -/
theorem C6_first_row_undefined (F : DFrame) (i : ℕ) :
    (compute_pioneer_weights_simple F).entry 0 i = none :=
  weights_entry_of_zero (row_sums_at_zero F) i

/-- Claim C1: the weight matrix has the same shape as the forecast matrix,
every defined entry lies in [0, 1], and every row within range is either
entirely undefined or entirely defined with the entries summing to exactly
1 and at least one entry strictly positive. -/
theorem C1_weight_matrix_invariants (F : DFrame) (t : ℕ) (ht : t < F.T) :
    ((compute_pioneer_weights_simple F).T = F.T ∧
      (compute_pioneer_weights_simple F).N = F.N) ∧
    (∀ i, i < F.N → ∀ w : ℚ,
      (compute_pioneer_weights_simple F).entry t i = some w → 0 ≤ w ∧ w ≤ 1) ∧
    ((∀ i, i < F.N → (compute_pioneer_weights_simple F).entry t i = none) ∨
      ((∀ i, i < F.N →
          ((compute_pioneer_weights_simple F).entry t i).isSome = true) ∧
        ((List.range F.N).map (fun i =>
          ((compute_pioneer_weights_simple F).entry t i).getD 0)).sum = 1 ∧
        (∃ i, i < F.N ∧
          0 < ((compute_pioneer_weights_simple F).entry t i).getD 0))) := by
  by_cases h : row_sums F t = 0
  · refine ⟨⟨rfl, rfl⟩, ?_, Or.inl (fun i _ => weights_entry_of_zero h i)⟩
    intro i _ w hw
    rw [weights_entry_of_zero h i] at hw
    exact Option.noConfusion hw
  · have hrs : 0 < row_sums F t := lt_of_le_of_ne (row_sums_nonneg F t) (Ne.symm h)
    refine ⟨⟨rfl, rfl⟩, ?_, Or.inr ⟨?_, ?_, ?_⟩⟩
    · intro i hi w hw
      rw [weights_entry_of_ne h i] at hw
      have hwv : w = rawQ F t i / row_sums F t := by simpa using hw.symm
      constructor
      · rw [hwv]
        exact div_nonneg (rawQ_nonneg F t i) (le_of_lt hrs)
      · rw [hwv, div_le_one hrs, row_sums_eq_sum]
        refine List.single_le_sum ?_ _ ?_
        · intro q hq
          obtain ⟨j, -, rfl⟩ := List.mem_map.mp hq
          exact rawQ_nonneg F t j
        · exact List.mem_map_of_mem _ (List.mem_range.mpr hi)
    · intro i _
      rw [weights_entry_of_ne h i]
      rfl
    · have hmap : ((List.range F.N).map (fun i =>
          ((compute_pioneer_weights_simple F).entry t i).getD 0)).sum =
          ((List.range F.N).map (fun i => rawQ F t i / row_sums F t)).sum := by
        simp only [weights_entry_of_ne h, Option.getD_some]
      rw [hmap, list_sum_map_div, ← row_sums_eq_sum, div_self h]
    · have hex : ∃ i ∈ List.range F.N, 0 < rawQ F t i := by
        refine exists_pos_of_sum_pos ?_
        rw [← row_sums_eq_sum]
        exact hrs
      obtain ⟨i, hir, hip⟩ := hex
      refine ⟨i, List.mem_range.mp hir, ?_⟩
      rw [weights_entry_of_ne h i, Option.getD_some]
      exact div_pos hip hrs

/-- Witness for C1 at the scenario matrix, period 3. -/
theorem C1_weight_matrix_invariants_w :
    3 < exF.T ∧
    (((compute_pioneer_weights_simple exF).T = exF.T ∧
      (compute_pioneer_weights_simple exF).N = exF.N) ∧
    (∀ i, i < exF.N → ∀ w : ℚ,
      (compute_pioneer_weights_simple exF).entry 3 i = some w → 0 ≤ w ∧ w ≤ 1) ∧
    ((∀ i, i < exF.N → (compute_pioneer_weights_simple exF).entry 3 i = none) ∨
      ((∀ i, i < exF.N →
          ((compute_pioneer_weights_simple exF).entry 3 i).isSome = true) ∧
        ((List.range exF.N).map (fun i =>
          ((compute_pioneer_weights_simple exF).entry 3 i).getD 0)).sum = 1 ∧
        (∃ i, i < exF.N ∧
          0 < ((compute_pioneer_weights_simple exF).entry 3 i).getD 0)))) :=
  ⟨by decide, C1_weight_matrix_invariants exF 3 (by decide)⟩

/-- Claim C2: a strictly positive weight for expert i at period t implies
that Step 1 (the distance strictly decreased), Step 2 (the group slope
strictly dominates the expert slope in absolute value) and the strict
positivity of the Step 3 denominator all held there, each comparison being
between defined values. -/
theorem C2_mask_soundness (F : DFrame) (t i : ℕ) (w : ℚ)
    (hw : (compute_pioneer_weights_simple F).entry t i = some w) (hpos : 0 < w) :
    (∃ d dp, distance F t i = some d ∧ distance_prev F t i = some dp ∧ d < dp) ∧
    (∃ dm dx, cabs ((delta_m F).entry t i) = some dm ∧
      cabs ((delta_X F).entry t i) = some dx ∧ dx < dm) ∧
    (∃ s, denom F t i = some s ∧ 0 < s) := by
  obtain ⟨hmask, -, -⟩ := mask_of_weight_pos hw hpos
  obtain ⟨hdist, horient, hgt⟩ := mask_parts hmask
  unfold cond_distance at hdist
  unfold cond_orientation cgtB at horient
  refine ⟨cltB_eq_true.mp hdist, ?_, cgt0_eq_true.mp hgt⟩
  obtain ⟨dx, dm, h1, h2, h3⟩ := cltB_eq_true.mp horient
  exact ⟨dm, dx, h2, h1, h3⟩

/-- Witness for C2 at the scenario matrix: expert 0 holds the full weight at
period 3. -/
theorem C2_mask_soundness_w :
    (compute_pioneer_weights_simple exF).entry 3 0 = some 1 ∧ (0 : ℚ) < 1 ∧
    ((∃ d dp, distance exF 3 0 = some d ∧ distance_prev exF 3 0 = some dp ∧
        d < dp) ∧
      (∃ dm dx, cabs ((delta_m exF).entry 3 0) = some dm ∧
        cabs ((delta_X exF).entry 3 0) = some dx ∧ dx < dm) ∧
      (∃ s, denom exF 3 0 = some s ∧ 0 < s)) :=
  ⟨by with_unfolding_all decide, by norm_num,
    C2_mask_soundness exF 3 0 1 (by with_unfolding_all decide) (by norm_num)⟩

/-- Claim C3: whenever the min_count=1 sum of the weights at period t is NaN
or exactly 0, the pooled value is the skipna cross-sectional mean of the
forecasts at t, and it is undefined exactly when every forecast at t is
undefined. -/
theorem C3_fallback_completeness (F W : DFrame) (t : ℕ)
    (hs : weight_sums F W t = none ∨ weight_sums F W t = some 0) :
    pooled_forecast_simple F W t = fallback_mean F t ∧
    (pooled_forecast_simple F W t = none ↔ ∀ i, i < F.N → F.entry t i = none) := by
  have hp : pooled_forecast_simple F W t = fallback_mean F t := by
    unfold pooled_forecast_simple
    rw [if_pos hs]
  refine ⟨hp, ?_⟩
  rw [hp]
  unfold fallback_mean
  rw [meanSkip_eq_none_iff, definedVals_eq_nil_iff]
  constructor
  · intro h i hi
    exact h _ (mem_rowList.mpr ⟨i, hi, rfl⟩)
  · intro h c hc
    obtain ⟨i, hi, rfl⟩ := mem_rowList.mp hc
    exact h i hi

/-- Witness for C3: period 1 of the scenario has no pioneer, so the weight
sum is NaN and the pooled value is the plain mean. -/
theorem C3_fallback_completeness_w :
    (weight_sums exF (compute_pioneer_weights_simple exF) 1 = none ∨
      weight_sums exF (compute_pioneer_weights_simple exF) 1 = some 0) ∧
    (pooled_forecast_simple exF (compute_pioneer_weights_simple exF) 1 =
        fallback_mean exF 1 ∧
      (pooled_forecast_simple exF (compute_pioneer_weights_simple exF) 1 = none ↔
        ∀ i, i < exF.N → exF.entry 1 i = none)) :=
  ⟨Or.inl (by with_unfolding_all decide),
    C3_fallback_completeness exF (compute_pioneer_weights_simple exF) 1
      (Or.inl (by with_unfolding_all decide))⟩

/-- Counterexample to C4 as stated for an arbitrary weight matrix: the
frames cexF and cexW have the same 1 x 2 shape, expert 0 has a defined
forecast at period 0, yet the pooled value at period 0 is NaN, because the
weight sum is 1 (so no fallback fires) while every product pairs a defined
value with a NaN. -/
theorem C4_counterexample :
    cexF.T = cexW.T ∧ cexF.N = cexW.N ∧ 0 < cexF.T ∧ 0 < cexF.N ∧
    (cexF.entry 0 0).isSome = true ∧
    pooled_forecast_simple cexF cexW 0 = none := by
  with_unfolding_all decide

/-- Claim C4, amended: with the weight matrix produced by
compute_pioneer_weights_simple on the same forecasts, the pooled value is
defined at every period where at least one expert has a defined forecast. -/
theorem C4_pool_total_for_computed_weights (F : DFrame) (t : ℕ)
    (hx : ∃ i, i < F.N ∧ (F.entry t i).isSome = true) :
    (pooled_forecast_simple F
      (compute_pioneer_weights_simple F) t).isSome = true := by
  obtain ⟨i, hi, hsome⟩ := hx
  obtain ⟨x, hxv⟩ := Option.isSome_iff_exists.mp hsome
  rw [Option.isSome_iff_ne_none]
  unfold pooled_forecast_simple
  split
  · unfold fallback_mean
    exact meanSkip_ne_none (mem_rowList.mpr ⟨i, hi, rfl⟩) (by rw [hxv]; simp)
  case isFalse hcond =>
    push_neg at hcond
    by_cases h : row_sums F t = 0
    · exfalso
      refine hcond.1 ?_
      rw [weight_sums, sumMin1_eq_none_iff, definedVals_eq_nil_iff]
      intro c hc
      obtain ⟨j, -, rfl⟩ := List.mem_map.mp hc
      exact weights_entry_of_zero h j
    · unfold weighted_sum
      refine sumMin1_ne_none (c := cmul (F.entry t i)
        ((compute_pioneer_weights_simple F).entry t i)) ?_ ?_
      · exact List.mem_map_of_mem _ (List.mem_range.mpr hi)
      · rw [hxv, weights_entry_of_ne h i]
        simp [cmul, cmap2]

/-- Witness for the amended C4 at the scenario matrix, period 2. -/
theorem C4_pool_total_for_computed_weights_w :
    (∃ i, i < exF.N ∧ (exF.entry 2 i).isSome = true) ∧
    (pooled_forecast_simple exF
      (compute_pioneer_weights_simple exF) 2).isSome = true :=
  ⟨⟨0, by decide, by decide⟩,
    C4_pool_total_for_computed_weights exF 2 ⟨0, by decide, by decide⟩⟩

/-- Claim C5: the leave-one-out benchmark used by
compute_pioneer_weights_simple equals the arithmetic mean of the defined
values of all other experts at the same period, computed per column, and is
undefined exactly when no other expert has a defined value there. -/
theorem C5_leave_one_out_benchmark (F : DFrame) (t i : ℕ)
    (ht : t < F.T) (hi : i < F.N) :
    (m_minus F).entry t i = looMean_spec F t i ∧
    ((m_minus F).entry t i = none ↔
      ∀ j, j < F.N → j ≠ i → F.entry t j = none) := by
  have hdv : definedVals (((List.range F.N).filter
      (fun j => decide (j ≠ i))).map (fun j => F.entry t j)) =
      ((List.range F.N).filter (fun j => decide (j ≠ i))).filterMap
        (fun j => F.entry t j) := by
    unfold definedVals
    rw [List.filterMap_map]
    rfl
  constructor
  · show meanSkip _ = looMean_spec F t i
    unfold meanSkip looMean_spec
    rw [hdv]
    by_cases hv : ((List.range F.N).filter
        (fun j => decide (j ≠ i))).filterMap (fun j => F.entry t j) = []
    · simp [hv]
    · simp [hv, List.length_eq_zero]
  · show meanSkip _ = none ↔ _
    rw [meanSkip_eq_none_iff, definedVals_eq_nil_iff]
    constructor
    · intro h j hj hne
      exact h _ (List.mem_map_of_mem _
        (List.mem_filter.mpr ⟨List.mem_range.mpr hj, decide_eq_true hne⟩))
    · intro h c hc
      obtain ⟨j, hj, rfl⟩ := List.mem_map.mp hc
      obtain ⟨hjr, hji⟩ := List.mem_filter.mp hj
      exact h j (List.mem_range.mp hjr) (of_decide_eq_true hji)

/-- Witness for C5 at the scenario matrix, period 1, expert 0. -/
theorem C5_leave_one_out_benchmark_w :
    1 < exF.T ∧ 0 < exF.N ∧
    ((m_minus exF).entry 1 0 = looMean_spec exF 1 0 ∧
      ((m_minus exF).entry 1 0 = none ↔
        ∀ j, j < exF.N → j ≠ 0 → exF.entry 1 j = none)) :=
  ⟨by decide, by decide,
    C5_leave_one_out_benchmark exF 1 0 (by decide) (by decide)⟩

/-- Claim C7: with a single expert the leave-one-out mean never exists, so
every weight is undefined at every period, both operations still return
(totally defined embedding, no exception path), and the pooled series
reproduces the single column, NaN entries included. -/
theorem C7_single_expert_degenerate (F : DFrame) (hN : F.N = 1) (t : ℕ)
    (ht : t < F.T) :
    (∀ i, i < F.N → (compute_pioneer_weights_simple F).entry t i = none) ∧
    pooled_forecast_simple F (compute_pioneer_weights_simple F) t =
      F.entry t 0 := by
  have hm : ∀ s, (m_minus F).entry s 0 = none := by
    intro s
    show meanSkip _ = none
    rw [meanSkip_eq_none_iff, definedVals_eq_nil_iff]
    intro c hc
    obtain ⟨j, hj, rfl⟩ := List.mem_map.mp hc
    obtain ⟨hjr, hji⟩ := List.mem_filter.mp hj
    have hj1 : j < 1 := by rw [← hN]; exact List.mem_range.mp hjr
    have hj0 : j = 0 := Nat.lt_one_iff.mp hj1
    exact absurd (of_decide_eq_true hji) (by simp [hj0])
  have hdm : ∀ s, (delta_m F).entry s 0 = none := by
    intro s
    show (dfDiff (m_minus F)).entry s 0 = none
    unfold dfDiff
    by_cases hs : s = 0
    · simp [hs]
    · simp [hs, hm, csub, cmap2]
  have hmask : ∀ s, maskPDM F s 0 = false := by
    intro s
    have hden : denom F s 0 = none := by
      unfold denom
      rw [hdm s]
      cases cabs ((delta_X F).entry s 0) <;> simp [cadd, cmap2, cabs]
    simp [maskPDM, hden, cgt0, cltB]
  have hr1 : List.range 1 = [0] := rfl
  have hrs : row_sums F t = 0 := by
    rw [row_sums_eq_sum, hN, hr1]
    simp [rawQ_of_not_mask (hmask t)]
  refine ⟨fun i _ => weights_entry_of_zero hrs i, ?_⟩
  have hws : weight_sums F (compute_pioneer_weights_simple F) t = none := by
    unfold weight_sums
    rw [sumMin1_eq_none_iff, definedVals_eq_nil_iff]
    intro c hc
    obtain ⟨j, -, rfl⟩ := List.mem_map.mp hc
    exact weights_entry_of_zero hrs j
  unfold pooled_forecast_simple
  rw [if_pos (Or.inl hws)]
  unfold fallback_mean rowList
  rw [hN, hr1]
  simp only [List.map_cons, List.map_nil]
  exact meanSkip_singleton _

/-- Witness for C7 at the single-expert frame, period 1 (a NaN period). -/
theorem C7_single_expert_degenerate_w :
    exG.N = 1 ∧ 1 < exG.T ∧
    ((∀ i, i < exG.N → (compute_pioneer_weights_simple exG).entry 1 i = none) ∧
      pooled_forecast_simple exG (compute_pioneer_weights_simple exG) 1 =
        exG.entry 1 0) :=
  ⟨rfl, by decide, C7_single_expert_degenerate exG rfl 1 (by decide)⟩

/-- Claim C8: on the scenario matrix, the weight row of period 0 is entirely
undefined and the pooled value at period 0 is 10, the simple-mean fallback. -/
theorem C8_scenario_period_zero :
    (∀ i, i < 3 → (compute_pioneer_weights_simple exF).entry 0 i = none) ∧
    pooled_forecast_simple exF (compute_pioneer_weights_simple exF) 0 =
      some 10 := by
  with_unfolding_all decide

/-- Claim C10: a strictly positive weight for expert i at period t needs
t at least 1, defined forecasts from expert i at t and t-1, and a defined
forecast from some other expert at t and at t-1. -/
theorem C10_positive_weight_data_defined (F : DFrame) (t i : ℕ) (w : ℚ)
    (hw : (compute_pioneer_weights_simple F).entry t i = some w)
    (hpos : 0 < w) :
    1 ≤ t ∧ (F.entry t i).isSome = true ∧ (F.entry (t - 1) i).isSome = true ∧
    (∃ j, j < F.N ∧ j ≠ i ∧ (F.entry t j).isSome = true) ∧
    (∃ j, j < F.N ∧ j ≠ i ∧ (F.entry (t - 1) j).isSome = true) := by
  obtain ⟨hmask, -, -⟩ := mask_of_weight_pos hw hpos
  obtain ⟨m, x, hdm, hdx, -, -, -, -, -⟩ := mask_data hmask
  obtain ⟨ht, ⟨a, ha⟩, ⟨b, hb⟩⟩ := dfDiff_some (F := F) hdx
  obtain ⟨-, ⟨p, hp⟩, ⟨q, hq⟩⟩ := dfDiff_some (F := m_minus F) hdm
  exact ⟨ht, by rw [ha]; rfl, by rw [hb]; rfl,
    m_minus_some_exists hp, m_minus_some_exists hq⟩

/-- Witness for C10 at the scenario matrix: expert 0 holds the full weight
at period 3. -/
theorem C10_positive_weight_data_defined_w :
    (compute_pioneer_weights_simple exF).entry 3 0 = some 1 ∧ (0 : ℚ) < 1 ∧
    (1 ≤ 3 ∧ (exF.entry 3 0).isSome = true ∧
      (exF.entry (3 - 1) 0).isSome = true ∧
      (∃ j, j < exF.N ∧ j ≠ 0 ∧ (exF.entry 3 j).isSome = true) ∧
      (∃ j, j < exF.N ∧ j ≠ 0 ∧ (exF.entry (3 - 1) j).isSome = true)) :=
  ⟨by with_unfolding_all decide, by norm_num,
    C10_positive_weight_data_defined exF 3 0 1
      (by with_unfolding_all decide) (by norm_num)⟩
